import Mathlib

/-!
Verification of the file-ingestion and batched-indexing pipeline of the
`cautious-llm` repository (`src/create_db.py`), with the configuration
surface of `src/cli.py` (`init` command) and `src/api.py`
(`initialize_database`).

Modelling conventions:
* File text is a `List Char` (one element per text unit).
* `create_db.py`'s module-level constants `REPO_PATH`, `DB_PATH`,
  `BATCH_SIZE` are Lean constants with the source's literal values.
* The external vector store is modelled as an `Option (List Chunk)`:
  `none` means no persisted store exists at the destination path,
  `some entries` is a store holding `entries`.
* `main` is modelled as a function from a `MainInput` (pre-existing store,
  files matched per extension, and a per-batch fault injection predicate
  saying which `add_documents` calls raise) to a `RunResult` holding the
  ordered trace of observable events and the final store state.
* The third-party `RecursiveCharacterTextSplitter` is external library
  code; it is modelled from the spec's chunker contract (`chunkText`).
-/

namespace CreateDb

/-- Module constant `REPO_PATH` of `src/create_db.py` (line 13): the root
directory scanned, hard-coded in the source. -/
def REPO_PATH : String := "/Users/ayush/Projects/Github/Langchain-issues/test-project"

/-- Module constant `DB_PATH` of `src/create_db.py` (line 14): the
destination store path, hard-coded in the source. -/
def DB_PATH : String := "./chroma_db"

/-- Module constant `BATCH_SIZE` of `src/create_db.py` (line 17),
hard-coded to 50. -/
def BATCH_SIZE : Nat := 50

/-- A file matched by the glob scan: its path, its decoded text (with
`errors="ignore"`, decoding always yields some text), and whether opening
and reading it succeeds (`open` may raise; the bare `except: pass`
skips such files). -/
structure FileEntry where
  path : String
  text : List Char
  readable : Bool
deriving DecidableEq, Repr

/-- A `langchain_core.documents.Document` as built by
`load_files_manually`: `page_content` is the file text, `metadata.source`
is the file path. -/
structure Document where
  page_content : List Char
  source : String
deriving DecidableEq, Repr

/-- A chunk produced by the splitter: a text segment together with the
source path inherited from its originating `Document`. -/
structure Chunk where
  text : List Char
  source : String
deriving DecidableEq, Repr

/-- Truthiness of Python `text.strip()`: true exactly when the text has a
character that is not whitespace. -/
def hasContent (text : List Char) : Bool :=
  text.any (fun c => !c.isWhitespace)

/-- Model of `load_files_manually` (`src/create_db.py` lines 19-31) for
one extension: of the files matched by the glob, the unreadable ones are
silently skipped, and each readable file whose text is non-empty after
trimming contributes one `Document` carrying its text and path. -/
def load_files_manually (files : List FileEntry) : List Document :=
  files.filterMap (fun f =>
    if f.readable then
      if hasContent f.text then some ⟨f.text, f.path⟩ else none
    else none)

/-- Modelled from the spec: the third-party
`RecursiveCharacterTextSplitter` (external library, not part of this
repository) per the chunker contract of spec section 4.2 — chunks of at
most `size` units covering the text, with `overlap` units shared between
consecutive chunks; only the final chunk of a document may be shorter
than `size`.  The degenerate configuration `size ≤ overlap` (never used
by the source, which fixes size 4000 and overlap 400) returns the text
as one chunk so that the recursion terminates. -/
def chunkText (size overlap : Nat) (text : List Char) : List (List Char) :=
  if h : text.length ≤ size ∨ size ≤ overlap then [text]
  else text.take size :: chunkText size overlap (text.drop (size - overlap))
termination_by text.length
decreasing_by
  push_neg at h
  obtain ⟨h1, h2⟩ := h
  simp only [List.length_drop]
  omega

/-- The extension table `file_types` of `src/create_db.py` (lines 41-51):
each extension with whether it has a syntax-aware `Language` (`true` for
`.py .js .ts .html .md`, `false` for the rest, which get the plain
length-based splitter). Both splitter kinds are external library code
modelled by `chunkText`; the flag is kept for fidelity to the table. -/
def file_types : List (String × Bool) :=
  [(".py", true), (".js", true), (".ts", true), (".html", true),
   (".md", true), (".css", false), (".json", false), (".yaml", false),
   (".txt", false)]

/-- Splitting one `Document` into `Chunk`s: `splitter.split_documents`
applied to a document yields one chunk per text segment, each inheriting
the document's source path. -/
def splitDocument (d : Document) : List Chunk :=
  (chunkText 4000 400 d.page_content).map (fun seg => ⟨seg, d.source⟩)

/-- The batch slicing of the safety loop (`src/create_db.py` lines
86-87): `for i in range(0, len(all_chunks), BATCH_SIZE)` with
`batch = all_chunks[i : i + BATCH_SIZE]` yields the successive blocks of
at most `B` chunks. A step of 0 raises `ValueError` in Python; the model
returns no batches in that never-taken configuration. -/
def batches (B : Nat) (xs : List Chunk) : List (List Chunk) :=
  if h : B = 0 ∨ xs = [] then []
  else xs.take B :: batches B (xs.drop B)
termination_by xs.length
decreasing_by
  push_neg at h
  obtain ⟨h1, h2⟩ := h
  simp only [List.length_drop]
  have : 0 < xs.length := List.length_pos.mpr h2
  omega

/-- The `total_batches` value computed at `src/create_db.py` line 84:
`(len(all_chunks) // BATCH_SIZE) + 1`, used only in the per-batch
progress message. -/
def total_batches (n B : Nat) : Nat := n / B + 1

/-- Observable events of a `main` run, in program order: the
`shutil.rmtree` deletion of the old store, the printed messages, the
embedding-model and store initialisations, and the per-batch memory
cleanup (`gc.collect()` plus `torch.mps.empty_cache()`). -/
inductive Event where
  | deletedOldStore
  | scanning (root : String)
  | noFilesFound
  | embeddingChunks (n B : Nat)
  | modelInitialized
  | storeOpened (path : String)
  | savedBatch (k tb : Nat)
  | errorSavingBatch
  | memoryCleanup
  | success (path : String)
deriving DecidableEq, Repr

/-- Input to a modelled `main` run: the store persisted at `DB_PATH`
before the run (if any), the files the glob matches for each extension,
and fault injection: `failAt k` means `db.add_documents` raises on the
batch at zero-based position `k`. -/
structure MainInput where
  priorStore : Option (List Chunk)
  filesFor : String → List FileEntry
  failAt : Nat → Bool

/-- The documents discovered by the scan phase of `main` (lines 55-56):
`load_files_manually` over the extensions of `file_types` in table
order. -/
def documents (inp : MainInput) : List Document :=
  file_types.flatMap (fun ft => load_files_manually (inp.filesFor ft.1))

/-- The `all_chunks` list built by the scan-and-chunk loop of `main`
(lines 55-67): per extension the matched documents are split and the
chunks appended in order. -/
def all_chunks (inp : MainInput) : List Chunk :=
  file_types.flatMap (fun ft =>
    (load_files_manually (inp.filesFor ft.1)).flatMap splitDocument)

/-- One pass of the safety loop (`src/create_db.py` lines 86-101) over
the remaining batches, `k` the zero-based position of the first of them
(so the printed batch number `i // BATCH_SIZE + 1` is `k + 1`): per
batch, a failing `add_documents` is caught and only the error message is
printed; a successful one appends the batch to the store, prints the
progress message, and runs the memory cleanup. Returns the events
emitted and the chunks persisted. -/
def batchLoop (failAt : Nat → Bool) (tb : Nat) :
    List (List Chunk) → Nat → List Event × List Chunk
  | [], _ => ([], [])
  | b :: rest, k =>
    if b = [] then batchLoop failAt tb rest (k + 1)
    else
      let r := batchLoop failAt tb rest (k + 1)
      if failAt k then (Event.errorSavingBatch :: r.1, r.2)
      else (Event.savedBatch (k + 1) tb :: Event.memoryCleanup :: r.1,
            b ++ r.2)

/-- Result of a `main` run: the ordered event trace and the store
persisted at `DB_PATH` when the run returns (`none` when no store exists
there). -/
structure RunResult where
  events : List Event
  store : Option (List Chunk)
deriving DecidableEq, Repr

/-- Model of `main` (`src/create_db.py` lines 33-103). Any pre-existing
store is deleted first (lines 35-36); the scan message is printed and
the scan-and-chunk loop runs (lines 53-67); with no chunks the run
prints `No files found.` and returns (lines 69-71), leaving no store at
the destination; otherwise the embedding model is initialised, the store
opened, the safety loop run, and the success message printed (lines
73-103). -/
def main (inp : MainInput) : RunResult :=
  let ev0 : List Event :=
    if inp.priorStore.isSome then [Event.deletedOldStore] else []
  let chunks := all_chunks inp
  if chunks = [] then
    { events := ev0 ++ [Event.scanning REPO_PATH, Event.noFilesFound],
      store := none }
  else
    let tb := total_batches chunks.length BATCH_SIZE
    let loop := batchLoop inp.failAt tb (batches BATCH_SIZE chunks) 0
    { events := ev0 ++
        [Event.scanning REPO_PATH,
         Event.embeddingChunks chunks.length BATCH_SIZE,
         Event.modelInitialized, Event.storeOpened DB_PATH] ++
        loop.1 ++ [Event.success DB_PATH],
      store := some loop.2 }

/-- An environment-variable mapping, name to value. -/
def Env : Type := String → Option String

/-- Configuration a `create_db.main` run uses: root scanned, store
location, batch bound. -/
structure Config where
  repo_path : String
  db_path : String
  batch_size : Nat
deriving DecidableEq, Repr

/-- The configuration `create_db.main` actually runs with under a given
process environment: the module constants of `src/create_db.py` lines
13-17. The module never reads `os.environ` and `main` takes no
parameters, so the constants apply whatever the environment holds. -/
def create_db_config (_env : Env) : Config :=
  { repo_path := REPO_PATH, db_path := DB_PATH, batch_size := BATCH_SIZE }

/-- Model of the environment updates of `cli.py init` (lines 60-63),
which sets `REPO_PATH`, `DB_PATH` and `BATCH_SIZE` from the CLI options
before calling `create_database`; `api.py initialize_database` (lines
252-254) sets the first two the same way. -/
def cliInitEnv (env : Env) (path db_path : String) (batch_size : Nat) :
    Env :=
  fun k =>
    if k = "REPO_PATH" then some path
    else if k = "DB_PATH" then some db_path
    else if k = "BATCH_SIZE" then some (toString batch_size)
    else env k

/-- Configuration as the spec describes it: the values of the
environment variables `REPO_PATH`, `DB_PATH` and `BATCH_SIZE`, with the
CLI defaults `./test-project`, `./chroma_db` and 50 when unset. -/
def claimedConfig (env : Env) : Config :=
  { repo_path := (env "REPO_PATH").getD "./test-project",
    db_path := (env "DB_PATH").getD "./chroma_db",
    batch_size := ((env "BATCH_SIZE").bind String.toNat?).getD 50 }

/-- Unfolding lemma: no batches of the empty chunk list. -/
theorem batches_nil (B : Nat) : batches B [] = [] := by
  rw [batches]; simp

/-- Unfolding lemma: with a positive bound and a non-empty list, the
first batch is the first `B` chunks and the rest are the batches of the
remainder. -/
theorem batches_cons (B : Nat) (xs : List Chunk) (hB : B ≠ 0)
    (hxs : xs ≠ []) :
    batches B xs = xs.take B :: batches B (xs.drop B) := by
  rw [batches]; simp [hB, hxs]

/-- Concatenating the batches in order gives back the chunk list. -/
theorem batches_join (B : Nat) (hB : B ≠ 0) (xs : List Chunk) :
    (batches B xs).flatten = xs := by
  have H : ∀ n, ∀ xs : List Chunk, xs.length ≤ n →
      (batches B xs).flatten = xs := by
    intro n
    induction n with
    | zero =>
      intro xs h
      have hx : xs = [] := List.length_eq_zero.mp (Nat.le_zero.mp h)
      subst hx
      simp [batches_nil]
    | succ n ih =>
      intro xs h
      by_cases hxs : xs = []
      · subst hxs; simp [batches_nil]
      · rw [batches_cons B xs hB hxs]
        have hlen : (xs.drop B).length ≤ n := by
          have : 0 < xs.length := List.length_pos.mpr hxs
          simp only [List.length_drop]
          omega
        simp only [List.flatten_cons, ih (xs.drop B) hlen,
          List.take_append_drop]
  exact H xs.length xs le_rfl

/-- Every batch is non-empty and holds at most `B` chunks. -/
theorem batches_mem (B : Nat) (hB : B ≠ 0) (xs : List Chunk) :
    ∀ b ∈ batches B xs, b ≠ [] ∧ b.length ≤ B := by
  have H : ∀ n, ∀ xs : List Chunk, xs.length ≤ n →
      ∀ b ∈ batches B xs, b ≠ [] ∧ b.length ≤ B := by
    intro n
    induction n with
    | zero =>
      intro xs h
      have hx : xs = [] := List.length_eq_zero.mp (Nat.le_zero.mp h)
      subst hx
      simp [batches_nil]
    | succ n ih =>
      intro xs h
      by_cases hxs : xs = []
      · subst hxs; simp [batches_nil]
      · rw [batches_cons B xs hB hxs]
        intro b hb
        rcases List.mem_cons.mp hb with hb | hb
        · subst hb
          constructor
          · have : 0 < xs.length := List.length_pos.mpr hxs
            simp only [ne_eq, ← List.length_eq_zero]
            simp only [List.length_take]
            omega
          · simp only [List.length_take]
            omega
        · have hlen : (xs.drop B).length ≤ n := by
            have : 0 < xs.length := List.length_pos.mpr hxs
            simp only [List.length_drop]
            omega
          exact ih (xs.drop B) hlen b hb
  exact H xs.length xs le_rfl

/-- Every batch but possibly the last holds exactly `B` chunks. -/
theorem batches_full (B : Nat) (hB : B ≠ 0) (xs : List Chunk) :
    ∀ i : Nat, i + 1 < (batches B xs).length →
      ((batches B xs).getD i []).length = B := by
  have H : ∀ n, ∀ xs : List Chunk, xs.length ≤ n →
      ∀ i : Nat, i + 1 < (batches B xs).length →
        ((batches B xs).getD i []).length = B := by
    intro n
    induction n with
    | zero =>
      intro xs h i hi
      have hx : xs = [] := List.length_eq_zero.mp (Nat.le_zero.mp h)
      subst hx
      simp [batches_nil] at hi
    | succ n ih =>
      intro xs h i hi
      by_cases hxs : xs = []
      · subst hxs; simp [batches_nil] at hi
      · have hcons := batches_cons B xs hB hxs
        rw [hcons] at hi ⊢
        match i with
        | 0 =>
          simp only [List.length_cons] at hi
          have hdrop : xs.drop B ≠ [] := by
            intro hc
            rw [hc, batches_nil] at hi
            simp at hi
          have hBlt : B < xs.length := by
            by_contra hc
            push_neg at hc
            exact hdrop (List.drop_eq_nil_of_le hc)
          simp only [List.getD_cons_zero, List.length_take]
          omega
        | i + 1 =>
          have hlen : (xs.drop B).length ≤ n := by
            have : 0 < xs.length := List.length_pos.mpr hxs
            simp only [List.length_drop]
            omega
          have hi2 : i + 1 < (batches B (xs.drop B)).length := by
            simpa using hi
          simpa only [List.getD_cons_succ] using ih (xs.drop B) hlen i hi2
  exact H xs.length xs le_rfl

/-- Number of batches of a non-empty chunk list. -/
theorem batches_length (B : Nat) (hB : B ≠ 0) (xs : List Chunk)
    (hxs : xs ≠ []) :
    (batches B xs).length = (xs.length - 1) / B + 1 := by
  have H : ∀ n, ∀ xs : List Chunk, xs.length ≤ n → xs ≠ [] →
      (batches B xs).length = (xs.length - 1) / B + 1 := by
    intro n
    induction n with
    | zero =>
      intro xs h hne
      exact absurd (List.length_eq_zero.mp (Nat.le_zero.mp h)) hne
    | succ n ih =>
      intro xs h hne
      rw [batches_cons B xs hB hne]
      by_cases hdrop : xs.drop B = []
      · have hle : xs.length ≤ B := by
          by_contra hc
          push_neg at hc
          have : (xs.drop B).length = xs.length - B := List.length_drop ..
          rw [hdrop] at this
          simp at this
          omega
        have hpos : 0 < xs.length := List.length_pos.mpr hne
        rw [hdrop, batches_nil]
        have : (xs.length - 1) / B = 0 := Nat.div_eq_of_lt (by omega)
        simp [this]
      · have hBlt : B < xs.length := by
          by_contra hc
          push_neg at hc
          exact hdrop (List.drop_eq_nil_of_le hc)
        have hlen : (xs.drop B).length ≤ n := by
          simp only [List.length_drop]
          omega
        rw [List.length_cons, ih (xs.drop B) hlen hdrop]
        simp only [List.length_drop]
        have hstep : xs.length - 1 = (xs.length - B - 1) + B := by omega
        rw [hstep, Nat.add_div_right _ (Nat.pos_of_ne_zero hB)]
  exact H xs.length xs le_rfl hxs

/-- Unfolding lemma: text that fits in one chunk gives that one chunk. -/
theorem chunkText_of_le (size overlap : Nat) (text : List Char)
    (h : text.length ≤ size) :
    chunkText size overlap text = [text] := by
  rw [chunkText]
  simp [h]

/-- Unfolding lemma: longer text gives a full first chunk followed by
the chunks of the text minus one stride. -/
theorem chunkText_of_gt (size overlap : Nat) (text : List Char)
    (h1 : size < text.length) (h2 : overlap < size) :
    chunkText size overlap text =
      text.take size ::
        chunkText size overlap (text.drop (size - overlap)) := by
  rw [chunkText]
  rw [dif_neg]
  push_neg
  omega

/-- The splitter always produces at least one chunk. -/
theorem chunkText_ne_nil (size overlap : Nat) (text : List Char) :
    chunkText size overlap text ≠ [] := by
  rw [chunkText]
  split <;> simp

/-- The first chunk of any split begins with the first `overlap` units
of the text being split. -/
theorem chunkText_head_take (size overlap : Nat) (hov : overlap ≤ size)
    (text : List Char) :
    ∀ b ∈ (chunkText size overlap text).head?, b.take overlap = text.take overlap := by
  rw [chunkText]
  split
  · simp
  · intro b hb
    simp only [List.head?_cons, Option.mem_def, Option.some.injEq] at hb
    subst hb
    rw [List.take_take]
    simp [Nat.min_eq_left hov]

/-- Overlap invariant of the splitter: consecutive chunks share
`overlap` units, the trailing ones of the first being the leading ones
of the second. -/
theorem chunkText_chain (size overlap : Nat) (hov : overlap < size)
    (text : List Char) :
    List.Chain' (fun a b => a.drop (a.length - overlap) = b.take overlap)
      (chunkText size overlap text) := by
  have H : ∀ n, ∀ text : List Char, text.length ≤ n →
      List.Chain' (fun a b => a.drop (a.length - overlap) = b.take overlap)
        (chunkText size overlap text) := by
    intro n
    induction n with
    | zero =>
      intro text h
      have : text = [] := List.length_eq_zero.mp (Nat.le_zero.mp h)
      subst this
      rw [chunkText_of_le size overlap [] (by simp)]
      simp
    | succ n ih =>
      intro text h
      by_cases hle : text.length ≤ size
      · rw [chunkText_of_le size overlap text hle]
        simp
      · push_neg at hle
        rw [chunkText_of_gt size overlap text hle hov]
        rw [List.chain'_cons']
        constructor
        · intro b hb
          have hbt := chunkText_head_take size overlap (Nat.le_of_lt hov)
            (text.drop (size - overlap)) b hb
          rw [hbt]
          have hlt : (text.take size).length = size := by
            simp only [List.length_take]
            omega
          rw [hlt, List.drop_take]
          congr 1
          omega
        · apply ih
          simp only [List.length_drop]
          omega
  exact H text.length text le_rfl

/-- Claim C3: for every chunk sequence and batch bound `B > 0`, the
safety loop's slicing partitions the sequence into contiguous batches
of at most `B` chunks each, only the last batch may be smaller, and the
concatenation of the batches in processing order is exactly the
original sequence, with no duplication or omission. -/
theorem C3_batch_partition (B : Nat) (hB : 0 < B) (xs : List Chunk) :
    (batches B xs).flatten = xs ∧
    (∀ b ∈ batches B xs, 0 < b.length ∧ b.length ≤ B) ∧
    (∀ i : Nat, i + 1 < (batches B xs).length →
      ((batches B xs).getD i []).length = B) := by
  have hB' : B ≠ 0 := Nat.pos_iff_ne_zero.mp hB
  refine ⟨batches_join B hB' xs, ?_, batches_full B hB' xs⟩
  intro b hb
  have hm := batches_mem B hB' xs b hb
  exact ⟨List.length_pos.mpr hm.1, hm.2⟩

/-- Witness for C3 at a concrete sequence of three chunks and bound 2. -/
theorem C3_batch_partition_witness :
    (0 < 2) ∧
    (batches 2 [⟨['a'], "a.py"⟩, ⟨['b'], "a.py"⟩, ⟨['c'], "b.md"⟩]).flatten
      = [⟨['a'], "a.py"⟩, ⟨['b'], "a.py"⟩, ⟨['c'], "b.md"⟩] :=
  ⟨by decide,
   (C3_batch_partition 2 (by decide)
     [⟨['a'], "a.py"⟩, ⟨['b'], "a.py"⟩, ⟨['c'], "b.md"⟩]).1⟩

/-- Claim C9: for a non-empty chunk list the number of batches the
safety loop actually iterates is the ceiling of the chunk count divided
by `BATCH_SIZE`, while the `total_batches` value printed in the progress
messages is the floor quotient plus one — which exceeds the actual batch
count by one exactly when the chunk count is a positive multiple of
`BATCH_SIZE` and equals it otherwise. -/
theorem C9_total_batches_off_by_one (xs : List Chunk) (h : xs ≠ []) :
    (batches BATCH_SIZE xs).length
        = (xs.length + BATCH_SIZE - 1) / BATCH_SIZE ∧
    (BATCH_SIZE ∣ xs.length →
      total_batches xs.length BATCH_SIZE
        = (batches BATCH_SIZE xs).length + 1) ∧
    (¬ BATCH_SIZE ∣ xs.length →
      total_batches xs.length BATCH_SIZE
        = (batches BATCH_SIZE xs).length) := by
  have hlen := batches_length BATCH_SIZE (by decide) xs h
  have hpos : 0 < xs.length := List.length_pos.mpr h
  rw [hlen]
  unfold total_batches BATCH_SIZE
  refine ⟨?_, ?_, ?_⟩ <;> omega

/-- Events of the safety loop that correspond to one attempted batch:
either the progress message of a successful `add_documents` or the
error message of a failed one. -/
def isBatchAttempt : Event → Bool
  | Event.savedBatch _ _ => true
  | Event.errorSavingBatch => true
  | _ => false

/-- Characterization of the safety loop on non-empty batches: the loop
attempts every batch exactly once in order — a failing batch emits the
error message and persists nothing, a successful batch emits the
progress message and the memory cleanup and persists its chunks — and
the store receives exactly the non-failing batches, concatenated in
order. -/
theorem batchLoop_eq (failAt : Nat → Bool) (tb : Nat) :
    ∀ (bs : List (List Chunk)) (k : Nat), (∀ b ∈ bs, b ≠ []) →
      batchLoop failAt tb bs k =
        (((bs.enumFrom k).map (fun p =>
            if failAt p.1 then [Event.errorSavingBatch]
            else [Event.savedBatch (p.1 + 1) tb,
                  Event.memoryCleanup])).flatten,
         (((bs.enumFrom k).filter
            (fun p => !failAt p.1)).map Prod.snd).flatten) := by
  intro bs
  induction bs with
  | nil => intro k h; simp [batchLoop]
  | cons b rest ih =>
    intro k h
    have hb : b ≠ [] := h b (List.mem_cons_self b rest)
    have hrest : ∀ x ∈ rest, x ≠ [] :=
      fun x hx => h x (List.mem_cons_of_mem b hx)
    rw [List.enumFrom_cons]
    simp only [batchLoop, hb, if_neg, ih (k + 1) hrest]
    by_cases hf : failAt k
    · simp [hf]
    · simp [hf]

/-- In the loop's event stream, the batch-attempt events are exactly one
per batch, in order: the error message for a failing batch and the
correctly numbered progress message for a successful one. -/
theorem batchLoop_attempts (failAt : Nat → Bool) (tb : Nat) :
    ∀ (bs : List (List Chunk)) (k : Nat), (∀ b ∈ bs, b ≠ []) →
      (batchLoop failAt tb bs k).1.filter isBatchAttempt =
        (bs.enumFrom k).map (fun p =>
          if failAt p.1 then Event.errorSavingBatch
          else Event.savedBatch (p.1 + 1) tb) := by
  intro bs
  induction bs with
  | nil => intro k h; simp [batchLoop]
  | cons b rest ih =>
    intro k h
    have hb : b ≠ [] := h b (List.mem_cons_self b rest)
    have hrest : ∀ x ∈ rest, x ≠ [] :=
      fun x hx => h x (List.mem_cons_of_mem b hx)
    rw [List.enumFrom_cons]
    simp only [batchLoop, hb, if_neg]
    by_cases hf : failAt k
    · simp [hf, List.filter, isBatchAttempt, ih (k + 1) hrest]
    · simp [hf, List.filter, isBatchAttempt, ih (k + 1) hrest]

/-- The loop runs the memory cleanup exactly once per successful batch. -/
theorem batchLoop_count_cleanup (failAt : Nat → Bool) (tb : Nat) :
    ∀ (bs : List (List Chunk)) (k : Nat), (∀ b ∈ bs, b ≠ []) →
      (batchLoop failAt tb bs k).1.count Event.memoryCleanup =
        ((bs.enumFrom k).filter (fun p => !failAt p.1)).length := by
  intro bs
  induction bs with
  | nil => intro k h; simp [batchLoop]
  | cons b rest ih =>
    intro k h
    have hb : b ≠ [] := h b (List.mem_cons_self b rest)
    have hrest : ∀ x ∈ rest, x ≠ [] :=
      fun x hx => h x (List.mem_cons_of_mem b hx)
    rw [List.enumFrom_cons]
    simp only [batchLoop, hb, if_neg]
    by_cases hf : failAt k
    · simp [hf, List.count_cons, ih (k + 1) hrest]
    · simp [hf, List.count_cons, ih (k + 1) hrest]

/-- Checker for the claim-C5 adjacency property: every `savedBatch`
event in the stream is immediately followed by a `memoryCleanup`
event. -/
def cleanupFollowsSaves : List Event → Bool
  | [] => true
  | [Event.savedBatch _ _] => false
  | Event.savedBatch _ _ :: Event.memoryCleanup :: rest =>
      cleanupFollowsSaves (Event.memoryCleanup :: rest)
  | Event.savedBatch _ _ :: _ :: _ => false
  | _ :: rest => cleanupFollowsSaves rest

/-- Prepending the safety loop's events preserves the adjacency check:
within the loop every progress message is immediately followed by the
cleanup. -/
theorem cleanupFollowsSaves_batchLoop (failAt : Nat → Bool) (tb : Nat) :
    ∀ (bs : List (List Chunk)) (k : Nat) (l : List Event),
      cleanupFollowsSaves ((batchLoop failAt tb bs k).1 ++ l) =
        cleanupFollowsSaves l := by
  intro bs
  induction bs with
  | nil => intro k l; simp [batchLoop]
  | cons b rest ih =>
    intro k l
    by_cases hb : b = []
    · simp only [batchLoop, hb, if_pos]
      exact ih (k + 1) l
    · by_cases hf : failAt k
      · have hstep : batchLoop failAt tb (b :: rest) k =
            (Event.errorSavingBatch :: (batchLoop failAt tb rest (k + 1)).1,
             (batchLoop failAt tb rest (k + 1)).2) := by
          simp [batchLoop, hb, hf]
        rw [hstep]
        simp only [List.cons_append]
        rw [show cleanupFollowsSaves (Event.errorSavingBatch ::
            ((batchLoop failAt tb rest (k + 1)).1 ++ l)) =
          cleanupFollowsSaves ((batchLoop failAt tb rest (k + 1)).1 ++ l)
          from rfl]
        exact ih (k + 1) l
      · have hstep : batchLoop failAt tb (b :: rest) k =
            (Event.savedBatch (k + 1) tb :: Event.memoryCleanup ::
               (batchLoop failAt tb rest (k + 1)).1,
             b ++ (batchLoop failAt tb rest (k + 1)).2) := by
          simp [batchLoop, hb, hf]
        rw [hstep]
        simp only [List.cons_append]
        rw [show cleanupFollowsSaves (Event.savedBatch (k + 1) tb ::
            Event.memoryCleanup ::
            ((batchLoop failAt tb rest (k + 1)).1 ++ l)) =
          cleanupFollowsSaves (Event.memoryCleanup ::
            ((batchLoop failAt tb rest (k + 1)).1 ++ l)) from rfl]
        rw [show cleanupFollowsSaves (Event.memoryCleanup ::
            ((batchLoop failAt tb rest (k + 1)).1 ++ l)) =
          cleanupFollowsSaves ((batchLoop failAt tb rest (k + 1)).1 ++ l)
          from rfl]
        exact ih (k + 1) l

/-- Unfolding of `main` on a run that discovers at least one chunk. -/
theorem main_eq_of_ne_nil (inp : MainInput) (h : all_chunks inp ≠ []) :
    main inp =
      { events :=
          (if inp.priorStore.isSome then [Event.deletedOldStore] else []) ++
          [Event.scanning REPO_PATH,
           Event.embeddingChunks (all_chunks inp).length BATCH_SIZE,
           Event.modelInitialized, Event.storeOpened DB_PATH] ++
          (batchLoop inp.failAt
            (total_batches (all_chunks inp).length BATCH_SIZE)
            (batches BATCH_SIZE (all_chunks inp)) 0).1 ++
          [Event.success DB_PATH],
        store := some (batchLoop inp.failAt
          (total_batches (all_chunks inp).length BATCH_SIZE)
          (batches BATCH_SIZE (all_chunks inp)) 0).2 } := by
  unfold main
  simp [h]

/-- Unfolding of `main` on a run that discovers no chunks. -/
theorem main_eq_of_nil (inp : MainInput) (h : all_chunks inp = []) :
    main inp =
      { events :=
          (if inp.priorStore.isSome then [Event.deletedOldStore] else []) ++
          [Event.scanning REPO_PATH, Event.noFilesFound],
        store := none } := by
  unfold main
  simp [h]

/-- Claim C4: on every run with at least one batch, a failure raised
while persisting any single batch is caught (only the error message is
emitted for it), every other batch is still attempted exactly once in
order with no retries, and the run ends with the success message naming
the store location, however many batches were skipped; the store
receives exactly the non-failing batches. -/
theorem C4_batch_failures_nonfatal (inp : MainInput)
    (h : all_chunks inp ≠ []) :
    (main inp).store = some
        ((((batches BATCH_SIZE (all_chunks inp)).enumFrom 0).filter
            (fun p => !inp.failAt p.1)).map Prod.snd).flatten ∧
    (main inp).events.filter isBatchAttempt =
      ((batches BATCH_SIZE (all_chunks inp)).enumFrom 0).map (fun p =>
        if inp.failAt p.1 then Event.errorSavingBatch
        else Event.savedBatch (p.1 + 1)
          (total_batches (all_chunks inp).length BATCH_SIZE)) ∧
    (main inp).events.getLast? = some (Event.success DB_PATH) := by
  have hbs : ∀ b ∈ batches BATCH_SIZE (all_chunks inp), b ≠ [] :=
    fun b hb => (batches_mem BATCH_SIZE (by decide) _ b hb).1
  have hloop := batchLoop_eq inp.failAt
    (total_batches (all_chunks inp).length BATCH_SIZE)
    (batches BATCH_SIZE (all_chunks inp)) 0 hbs
  have hatt := batchLoop_attempts inp.failAt
    (total_batches (all_chunks inp).length BATCH_SIZE)
    (batches BATCH_SIZE (all_chunks inp)) 0 hbs
  rw [main_eq_of_ne_nil inp h]
  refine ⟨by rw [hloop], ?_, ?_⟩
  · simp only [List.filter_append, hatt]
    cases hp : inp.priorStore.isSome <;>
      simp [isBatchAttempt, List.filter]
  · simp only [← List.append_assoc]
    exact List.getLast?_concat _

/-- Claim C5 (amended): the memory-release step runs immediately after
each successful batch commit, before any later batch's processing — but
only after successful commits: the cleanup count equals the number of
non-failing batches, not the number of all batches. -/
theorem C5_cleanup_after_successful_batches (inp : MainInput)
    (h : all_chunks inp ≠ []) :
    cleanupFollowsSaves (main inp).events = true ∧
    (main inp).events.count Event.memoryCleanup =
      (((batches BATCH_SIZE (all_chunks inp)).enumFrom 0).filter
        (fun p => !inp.failAt p.1)).length := by
  have hbs : ∀ b ∈ batches BATCH_SIZE (all_chunks inp), b ≠ [] :=
    fun b hb => (batches_mem BATCH_SIZE (by decide) _ b hb).1
  have hcount := batchLoop_count_cleanup inp.failAt
    (total_batches (all_chunks inp).length BATCH_SIZE)
    (batches BATCH_SIZE (all_chunks inp)) 0 hbs
  rw [main_eq_of_ne_nil inp h]
  constructor
  · have hpre : ∀ t, cleanupFollowsSaves (Event.scanning REPO_PATH ::
        Event.embeddingChunks (all_chunks inp).length BATCH_SIZE ::
        Event.modelInitialized :: Event.storeOpened DB_PATH :: t) =
        cleanupFollowsSaves t := fun t => rfl
    cases hp : inp.priorStore.isSome
    · simp only [hp, Bool.false_eq_true, if_false, List.nil_append,
        List.cons_append, List.append_assoc]
      rw [hpre, cleanupFollowsSaves_batchLoop]
      rfl
    · simp only [hp, if_true, List.cons_append, List.append_assoc,
        List.nil_append]
      rw [show ∀ t, cleanupFollowsSaves (Event.deletedOldStore :: t)
          = cleanupFollowsSaves t from fun t => rfl]
      rw [hpre, cleanupFollowsSaves_batchLoop]
      rfl
  · simp only [List.count_append, hcount]
    cases hp : inp.priorStore.isSome <;> simp [List.count_cons]

/-- Claim C6: when a store exists at the destination as the run starts,
its deletion is the very first step — before the scan, chunking or
indexing — and the final store contents are the same as they would be
with no pre-existing store: only entries produced in this run. -/
theorem C6_full_rebuild (inp : MainInput) (p : List Chunk)
    (hp : inp.priorStore = some p) :
    (main inp).events.head? = some Event.deletedOldStore ∧
    (main inp).events[1]? = some (Event.scanning REPO_PATH) ∧
    (main inp).store = (main { inp with priorStore := none }).store := by
  have hsame : all_chunks { inp with priorStore := none } = all_chunks inp :=
    rfl
  by_cases h : all_chunks inp = []
  · rw [main_eq_of_nil inp h, main_eq_of_nil _ (by rw [hsame]; exact h)]
    simp [hp]
  · rw [main_eq_of_ne_nil inp h, main_eq_of_ne_nil _ (by rw [hsame]; exact h)]
    simp [hp, hsame]

/-- Claim C10: when the scan produces zero chunks, the run has already
deleted any pre-existing store, prints the scanning and `No files
found.` messages only, and returns: no embedding model is initialised,
no store is opened, no success message is printed, and the destination
is left with no store at all. -/
theorem C10_empty_scan_leaves_no_store (inp : MainInput)
    (h : all_chunks inp = []) :
    (main inp).store = none ∧
    (main inp).events =
      (if inp.priorStore.isSome then [Event.deletedOldStore] else []) ++
        [Event.scanning REPO_PATH, Event.noFilesFound] ∧
    Event.modelInitialized ∉ (main inp).events ∧
    (∀ pth, Event.storeOpened pth ∉ (main inp).events) ∧
    (∀ pth, Event.success pth ∉ (main inp).events) := by
  rw [main_eq_of_nil inp h]
  refine ⟨rfl, rfl, ?_, ?_, ?_⟩ <;>
    cases hp : inp.priorStore.isSome <;> simp

/-- Claim C8: for length-based splitting of a document text longer than
one chunk, any two consecutive chunks agree on the configured overlap of
400 units — the trailing 400 units of the first chunk are the leading
400 units of the second. -/
theorem C8_chunk_overlap (text : List Char) (hlen : 4000 < text.length)
    (i : Nat) (hi : i + 1 < (chunkText 4000 400 text).length) :
    ((chunkText 4000 400 text).getD i []).drop
        (((chunkText 4000 400 text).getD i []).length - 400)
      = ((chunkText 4000 400 text).getD (i + 1) []).take 400 := by
  have hchain := chunkText_chain 4000 400 (by norm_num) text
  rw [List.chain'_iff_get] at hchain
  have hgt := hlen
  have hi' : i < (chunkText 4000 400 text).length - 1 := by omega
  have hR := hchain i hi'
  rw [List.getD_eq_get _ _ (show i < (chunkText 4000 400 text).length by omega),
    List.getD_eq_get _ _ (show i + 1 < (chunkText 4000 400 text).length by omega)]
  exact hR

/-- Witness for C8 on a 4100-unit text: its two chunks share their 400
boundary units. -/
theorem C8_chunk_overlap_witness :
    (4000 < (List.replicate 4100 'a').length) ∧
    (0 + 1 < (chunkText 4000 400 (List.replicate 4100 'a')).length) ∧
    ((chunkText 4000 400 (List.replicate 4100 'a')).getD 0 []).drop
        (((chunkText 4000 400 (List.replicate 4100 'a')).getD 0 []).length
          - 400)
      = ((chunkText 4000 400 (List.replicate 4100 'a')).getD (0 + 1) []).take
          400 := by
  have h1 : chunkText 4000 400 (List.replicate 4100 'a')
      = [List.replicate 4000 'a', List.replicate 500 'a'] := by
    rw [chunkText_of_gt 4000 400 _ (by rw [List.length_replicate]; norm_num)
      (by norm_num)]
    rw [List.take_replicate, List.drop_replicate]
    norm_num
    rw [chunkText_of_le 4000 400 _ (by rw [List.length_replicate]; norm_num)]
  have hlen : 4000 < (List.replicate 4100 'a').length := by
    rw [List.length_replicate]; norm_num
  have hi : 0 + 1 < (chunkText 4000 400 (List.replicate 4100 'a')).length := by
    rw [h1]; norm_num
  exact ⟨hlen, hi, C8_chunk_overlap (List.replicate 4100 'a') hlen 0 hi⟩

/-- Safety-loop outcome on three non-empty batches of which exactly the
second fails: the store receives the first and third. -/
theorem batchLoop_three (failAt : Nat → Bool) (tb : Nat)
    (b0 b1 b2 : List Chunk) (h0 : b0 ≠ []) (h1 : b1 ≠ []) (h2 : b2 ≠ [])
    (hf0 : failAt 0 = false) (hf1 : failAt 1 = true)
    (hf2 : failAt 2 = false) :
    (batchLoop failAt tb [b0, b1, b2] 0).2 = b0 ++ b2 := by
  simp [batchLoop, h0, h1, h2, hf0, hf1, hf2]

/-- Claim C2 (amended): for an input of exactly 120 chunks and the
batch size of 50, if persistence fails on the second batch and succeeds
on the first and third, the run still ends with the overall success
message and the store holds the 70 chunks of batches 1 and 3 (50 from
batch 1 plus the 20 of the final partial batch) — not 80. -/
theorem C2_fault_injection_scenario (inp : MainInput)
    (h120 : (all_chunks inp).length = 120)
    (hf0 : inp.failAt 0 = false) (hf1 : inp.failAt 1 = true)
    (hf2 : inp.failAt 2 = false) :
    (main inp).store.map List.length = some 70 ∧
    (main inp).events.getLast? = some (Event.success DB_PATH) := by
  have hne : all_chunks inp ≠ [] := by
    intro hc
    rw [hc] at h120
    simp at h120
  have hB : BATCH_SIZE = 50 := rfl
  have hd50 : ((all_chunks inp).drop 50).length = 70 := by
    simp [h120]
  have hd100 : (((all_chunks inp).drop 50).drop 50).length = 20 := by
    simp [h120]
  have hbat : batches 50 (all_chunks inp) =
      [(all_chunks inp).take 50, ((all_chunks inp).drop 50).take 50,
       ((all_chunks inp).drop 50).drop 50] := by
    rw [batches_cons 50 _ (by norm_num) hne]
    rw [batches_cons 50 _ (by norm_num)
      (by intro hc; rw [hc] at hd50; simp at hd50)]
    rw [batches_cons 50 _ (by norm_num)
      (by intro hc; rw [hc] at hd100; simp at hd100)]
    rw [List.take_of_length_le
      (show (((all_chunks inp).drop 50).drop 50).length ≤ 50 from by omega)]
    rw [List.drop_eq_nil_of_le
      (show (((all_chunks inp).drop 50).drop 50).length ≤ 50 from by omega)]
    rw [batches_nil]
  have hb0 : (all_chunks inp).take 50 ≠ [] := by
    intro hc
    have := congrArg List.length hc
    simp [h120] at this
  have hb1 : ((all_chunks inp).drop 50).take 50 ≠ [] := by
    intro hc
    have := congrArg List.length hc
    simp [h120] at this
  have hb2 : ((all_chunks inp).drop 50).drop 50 ≠ [] := by
    intro hc
    rw [hc] at hd100
    simp at hd100
  rw [main_eq_of_ne_nil inp hne]
  constructor
  · rw [show BATCH_SIZE = 50 from rfl, hbat]
    rw [batchLoop_three _ _ _ _ _ hb0 hb1 hb2 hf0 hf1 hf2]
    simp [h120]
  · simp only [← List.append_assoc]
    exact List.getLast?_concat _

/-- A file whose text is one unit long, used to build concrete runs. -/
def c2file : FileEntry := ⟨"chunk.txt", ['a'], true⟩

/-- Concrete run input producing exactly 120 chunks (120 one-unit `.txt`
files, one chunk each) with persistence failing exactly on the second
batch (zero-based position 1). -/
def c2input : MainInput :=
  { priorStore := none,
    filesFor := fun ext =>
      if ext = ".txt" then List.replicate 120 c2file else [],
    failAt := fun k => k == 1 }

/-- Scanning `n` identical readable, non-empty files yields `n`
identical documents. -/
theorem load_files_manually_replicate (n : Nat) (f : FileEntry)
    (hr : f.readable = true) (hc : hasContent f.text = true) :
    load_files_manually (List.replicate n f) =
      List.replicate n ⟨f.text, f.path⟩ := by
  induction n with
  | zero => rfl
  | succ n ih =>
    simp only [List.replicate_succ, load_files_manually,
      List.filterMap_cons, hr, hc, if_true]
    unfold load_files_manually at ih
    rw [ih]

/-- Chunk count of `n` identical documents. -/
theorem length_flatMap_replicate (n : Nat) (d : Document) :
    ((List.replicate n d).flatMap splitDocument).length =
      n * (splitDocument d).length := by
  induction n with
  | zero => simp
  | succ n ih =>
    simp [List.replicate_succ, ih]
    ring

/-- The concrete 120-file input produces exactly 120 chunks. -/
theorem c2input_chunks_length : (all_chunks c2input).length = 120 := by
  have hload := load_files_manually_replicate 120 c2file rfl (by decide)
  have hone : (splitDocument ⟨c2file.text, c2file.path⟩).length = 1 := by
    unfold splitDocument
    rw [chunkText_of_le 4000 400 _ (by decide)]
    rfl
  simp only [all_chunks, c2input, file_types, List.flatMap_cons,
    List.flatMap_nil]
  simp only [show ((".py" : String) = ".txt") = False by simp,
    show ((".js" : String) = ".txt") = False by simp,
    show ((".ts" : String) = ".txt") = False by simp,
    show ((".html" : String) = ".txt") = False by simp,
    show ((".md" : String) = ".txt") = False by simp,
    show ((".css" : String) = ".txt") = False by simp,
    show ((".json" : String) = ".txt") = False by simp,
    show ((".yaml" : String) = ".txt") = False by simp,
    show ((".txt" : String) = ".txt") = True by simp,
    if_true, if_false]
  simp only [load_files_manually, List.filterMap_nil, List.flatMap_nil,
    List.nil_append, List.append_nil]
  unfold load_files_manually at hload
  rw [hload]
  rw [length_flatMap_replicate 120 ⟨c2file.text, c2file.path⟩, hone]

/-- Counterexample to C2 as stated: on a concrete 120-chunk input whose
second batch fails, the store ends with 70 chunks, not the claimed 80. -/
theorem C2_counterexample :
    (main c2input).store.map List.length ≠ some 80 := by
  have h120 := c2input_chunks_length
  have hne : all_chunks c2input ≠ [] := by
    intro hc
    rw [hc] at h120
    simp at h120
  have hd50 : ((all_chunks c2input).drop 50).length = 70 := by
    simp [h120]
  have hd100 : (((all_chunks c2input).drop 50).drop 50).length = 20 := by
    simp [h120]
  have hbat : batches 50 (all_chunks c2input) =
      [(all_chunks c2input).take 50, ((all_chunks c2input).drop 50).take 50,
       ((all_chunks c2input).drop 50).drop 50] := by
    rw [batches_cons 50 _ (by norm_num) hne]
    rw [batches_cons 50 _ (by norm_num)
      (by intro hc; rw [hc] at hd50; simp at hd50)]
    rw [batches_cons 50 _ (by norm_num)
      (by intro hc; rw [hc] at hd100; simp at hd100)]
    rw [List.take_of_length_le
      (show (((all_chunks c2input).drop 50).drop 50).length ≤ 50 from by omega)]
    rw [List.drop_eq_nil_of_le
      (show (((all_chunks c2input).drop 50).drop 50).length ≤ 50 from by omega)]
    rw [batches_nil]
  have hb0 : (all_chunks c2input).take 50 ≠ [] := by
    intro hc
    have := congrArg List.length hc
    simp [h120] at this
  have hb1 : ((all_chunks c2input).drop 50).take 50 ≠ [] := by
    intro hc
    have := congrArg List.length hc
    simp [h120] at this
  have hb2 : ((all_chunks c2input).drop 50).drop 50 ≠ [] := by
    intro hc
    rw [hc] at hd100
    simp at hd100
  have hcf0 : c2input.failAt 0 = false := rfl
  have hcf1 : c2input.failAt 1 = true := rfl
  have hcf2 : c2input.failAt 2 = false := rfl
  rw [main_eq_of_ne_nil c2input hne]
  rw [show BATCH_SIZE = 50 from rfl, hbat]
  rw [batchLoop_three _ _ _ _ _ hb0 hb1 hb2 hcf0 hcf1 hcf2]
  simp [h120]

/-- Witness for the amended C2 at the concrete 120-chunk input. -/
theorem C2_fault_injection_scenario_witness :
    ((all_chunks c2input).length = 120) ∧
    (main c2input).store.map List.length = some 70 :=
  ⟨c2input_chunks_length,
   (C2_fault_injection_scenario c2input c2input_chunks_length
      rfl rfl rfl).1⟩

/-- Concrete one-file run input whose single batch always fails. -/
def onefileInput : MainInput :=
  { priorStore := none,
    filesFor := fun ext => if ext = ".txt" then [c2file] else [],
    failAt := fun _ => true }

/-- The one-file input produces exactly one chunk. -/
theorem onefile_chunks :
    all_chunks onefileInput = [⟨['a'], "chunk.txt"⟩] := by
  have hsplit : splitDocument ⟨['a'], "chunk.txt"⟩
      = [⟨['a'], "chunk.txt"⟩] := by
    unfold splitDocument
    rw [chunkText_of_le 4000 400 _ (by decide)]
    rfl
  simp only [all_chunks, onefileInput, file_types, List.flatMap_cons,
    List.flatMap_nil]
  simp only [show ((".py" : String) = ".txt") = False by simp,
    show ((".js" : String) = ".txt") = False by simp,
    show ((".ts" : String) = ".txt") = False by simp,
    show ((".html" : String) = ".txt") = False by simp,
    show ((".md" : String) = ".txt") = False by simp,
    show ((".css" : String) = ".txt") = False by simp,
    show ((".json" : String) = ".txt") = False by simp,
    show ((".yaml" : String) = ".txt") = False by simp,
    show ((".txt" : String) = ".txt") = True by simp,
    if_true, if_false]
  simp only [load_files_manually, List.filterMap_nil, List.flatMap_nil,
    List.nil_append, List.append_nil, List.filterMap_cons]
  simp only [c2file, show hasContent ['a'] = true from by decide, if_true]
  simp [hsplit]

/-- Counterexample to C5 as stated: a concrete run with one batch whose
persistence fails performs no memory-release step at all, so the
release does not happen after every batch. -/
theorem C5_counterexample :
    (batches BATCH_SIZE (all_chunks onefileInput)).length = 1 ∧
    (main onefileInput).events.count Event.memoryCleanup = 0 := by
  have hchunks := onefile_chunks
  have hne : all_chunks onefileInput ≠ [] := by
    rw [hchunks]
    simp
  have hbat : batches BATCH_SIZE ([⟨['a'], "chunk.txt"⟩] : List Chunk)
      = [[⟨['a'], "chunk.txt"⟩]] := by
    rw [show BATCH_SIZE = 50 from rfl]
    rw [batches_cons 50 _ (by norm_num) (by simp)]
    simp
    rw [batches_nil]
  constructor
  · rw [hchunks, hbat]
    rfl
  · rw [main_eq_of_ne_nil _ hne, hchunks, hbat]
    decide

/-- Witness for the amended C5 at the one-file input: the adjacency
check holds on its event trace. -/
theorem C5_cleanup_after_successful_batches_witness :
    (all_chunks onefileInput ≠ []) ∧
    cleanupFollowsSaves (main onefileInput).events = true :=
  ⟨by rw [onefile_chunks]; simp,
   (C5_cleanup_after_successful_batches onefileInput
     (by rw [onefile_chunks]; simp)).1⟩

/-- Witness for C4 at the one-file input whose only batch fails: the
run still ends with the success message. -/
theorem C4_batch_failures_nonfatal_witness :
    (all_chunks onefileInput ≠ []) ∧
    (main onefileInput).events.getLast? = some (Event.success DB_PATH) :=
  ⟨by rw [onefile_chunks]; simp,
   (C4_batch_failures_nonfatal onefileInput
     (by rw [onefile_chunks]; simp)).2.2⟩

/-- Concrete run input with a pre-existing store and no matching
files. -/
def c6input : MainInput :=
  { priorStore := some [],
    filesFor := fun _ => [],
    failAt := fun _ => false }

/-- Witness for C6 at a run with a pre-existing store: deletion is the
first event. -/
theorem C6_full_rebuild_witness :
    (c6input.priorStore = some []) ∧
    (main c6input).events.head? = some Event.deletedOldStore :=
  ⟨rfl, (C6_full_rebuild c6input [] rfl).1⟩

/-- Witness for C10 at a run that scans no files: no store remains. -/
theorem C10_empty_scan_leaves_no_store_witness :
    (all_chunks c6input = []) ∧ (main c6input).store = none :=
  ⟨rfl, (C10_empty_scan_leaves_no_store c6input rfl).1⟩

/-- Claim C1 (the code, not the claim): the configuration used by
`create_db.main` is the hard-coded module constants whatever the CLI
writes into the environment — after `cli.py init` sets `REPO_PATH` to
`./myproj`, `DB_PATH` to `./mydb` and `BATCH_SIZE` to `10`, the run
still scans the hard-coded root, writes `./chroma_db`, and batches by
50, differing from the environment-derived configuration the claim
describes. -/
theorem C1_configuration_ignored :
    create_db_config (cliInitEnv (fun _ => none) "./myproj" "./mydb" 10) =
      { repo_path := REPO_PATH, db_path := DB_PATH, batch_size := 50 } ∧
    create_db_config (cliInitEnv (fun _ => none) "./myproj" "./mydb" 10) ≠
      claimedConfig (cliInitEnv (fun _ => none) "./myproj" "./mydb" 10) :=
  ⟨rfl, by decide⟩

/-- Claim C7: scanning decomposes per file; a file empty after trimming
contributes no Document and hence no Chunk; a readable file with
non-empty trimmed text contributes exactly one Document and at least
one Chunk, all its chunks carrying its path; and every chunk of a run
traces back to a discovered Document with the same source path. -/
theorem C7_document_chunk_provenance (files : List FileEntry)
    (f : FileEntry) (inp : MainInput) :
    (load_files_manually files =
      files.flatMap (fun g => load_files_manually [g])) ∧
    (hasContent f.text = false → load_files_manually [f] = []) ∧
    (f.readable = true → hasContent f.text = true →
      load_files_manually [f] = [⟨f.text, f.path⟩] ∧
      0 < (splitDocument ⟨f.text, f.path⟩).length ∧
      ∀ c ∈ splitDocument ⟨f.text, f.path⟩, c.source = f.path) ∧
    (∀ c ∈ all_chunks inp, ∃ d ∈ documents inp, c.source = d.source) := by
  refine ⟨?_, ?_, ?_, ?_⟩
  · induction files with
    | nil => rfl
    | cons g gs ih =>
      simp only [load_files_manually, List.filterMap_cons,
        List.flatMap_cons] at ih ⊢
      by_cases hr : g.readable
      · by_cases hc : hasContent g.text
        · simp [hr, hc, ih]
        · simp [hr, hc, ih]
      · simp [hr, ih]
  · intro hc
    simp [load_files_manually, hc]
  · intro hr hc
    refine ⟨?_, ?_, ?_⟩
    · simp [load_files_manually, hr, hc]
    · unfold splitDocument
      rw [List.length_map]
      exact List.length_pos.mpr (chunkText_ne_nil 4000 400 f.text)
    · intro c hcmem
      unfold splitDocument at hcmem
      rw [List.mem_map] at hcmem
      obtain ⟨seg, -, hceq⟩ := hcmem
      rw [← hceq]
  · intro c hcmem
    simp only [all_chunks, List.mem_flatMap] at hcmem
    obtain ⟨ft, hft, hcm⟩ := hcmem
    obtain ⟨d, hd, hcd⟩ := hcm
    refine ⟨d, ?_, ?_⟩
    · simp only [documents, List.mem_flatMap]
      exact ⟨ft, hft, hd⟩
    · unfold splitDocument at hcd
      rw [List.mem_map] at hcd
      obtain ⟨seg, -, hceq⟩ := hcd
      rw [← hceq]

/-- Witness for C7 at a concrete readable non-empty file: one Document,
at least one Chunk. -/
theorem C7_document_chunk_provenance_witness :
    load_files_manually [c2file] = [⟨c2file.text, c2file.path⟩] ∧
    0 < (splitDocument ⟨c2file.text, c2file.path⟩).length :=
  have h := (C7_document_chunk_provenance [c2file] c2file c6input).2.2.1
    rfl (by decide)
  ⟨h.1, h.2.1⟩

/-- Witness for C9 at a concrete one-chunk list. -/
theorem C9_total_batches_off_by_one_witness :
    ([(⟨['a'], "a.py"⟩ : Chunk)] ≠ []) ∧
    (batches BATCH_SIZE [(⟨['a'], "a.py"⟩ : Chunk)]).length
      = (([(⟨['a'], "a.py"⟩ : Chunk)].length + BATCH_SIZE - 1) / BATCH_SIZE) :=
  ⟨by decide,
   (C9_total_batches_off_by_one [⟨['a'], "a.py"⟩] (by decide)).1⟩

end CreateDb
